import Mathlib

/-!
Verification of the arxiv-tools collection/enrichment pipeline.

Shallow embedding of the pure core of the repository:
- the per-record enrichment application and filtering step of
  process_papers_classification (llm_process.py),
- the whitelist membership test is_paper_in_whitelist (llm_process.py),
- the classification-vocabulary validation of process_paper_complete
  (llm_process.py),
- the merge operations merge_papers_by_topic, add_incremental_papers and the
  incremental merge of collect_daily_papers (daily_paper_collector.py),
- the persistence/ledger operations save_papers_for_date (both variants) and
  the empty-file cleanup (cleanup_empty_papers.py).

Python dicts keyed by paper_id are embedded as association lists (List Paper
looked up by the paper_id field); per-date files are an association list from
date string to record list.  Machine-level concerns (HTTP, file IO, clock)
are out of scope; the functions below mirror the in-memory transformations
the source performs on the loaded JSON values.
-/

namespace ArxivTools

/-- A paper record, with the fields written by the source adapters in
daily_paper_collector.py (search_papers_by_keywords / search_papers_by_categories)
plus the optional subjects field read by is_paper_in_whitelist; records from the
two adapters in this repository carry no subjects key, embedded as none. -/
structure Paper where
  paper_title : String
  paper_title_zh : String
  paper_id : String
  paper_abstract : String
  paper_abstract_zh : String
  primary_category : String
  update_time : String
  paper_authors : String
  topic : List String
  category : List String
  subjects : Option (List String)
  deriving DecidableEq

/-- The structured result of one enrichment (translation + classification)
call, as returned by process_paper_complete in llm_process.py. -/
structure EnrichResult where
  paper_title_zh : String
  paper_abstract_zh : String
  topic : List String
  category : List String
  deriving DecidableEq

/-- The configuration loaded by load_config in llm_process.py. -/
structure Config where
  all_topic : List String
  all_category : List String
  whitelist_subjects : List String
  deriving DecidableEq

/-- The index ledger record of index.json. -/
structure LedgerIndex where
  dates : List String
  total_papers : Nat
  last_updated : String
  deriving DecidableEq

/-- Does the character list w occur at the start of s (helper for the Python
substring test)? -/
def startsWithChars : List Char → List Char → Bool
  | [], _ => true
  | _ :: _, [] => false
  | a :: as, b :: bs => a == b && startsWithChars as bs

/-- Does the character list w occur contiguously inside s? -/
def substrAux (w : List Char) : List Char → Bool
  | [] => startsWithChars w []
  | c :: cs => startsWithChars w (c :: cs) || substrAux w cs

/-- Python's substring containment test (needle in hay) on strings. -/
def strContains (needle hay : String) : Bool :=
  substrAux needle.data hay.data

/-- is_paper_in_whitelist (llm_process.py lines 32-50): true iff some element
of the record's subjects list (paper.get with default empty) contains some
configured whitelist subject as a substring. -/
def is_paper_in_whitelist (paper : Paper) (whitelist_subjects : List String) : Bool :=
  (paper.subjects.getD []).any fun subject =>
    whitelist_subjects.any fun w => strContains w subject

/-- The all-empty result returned by process_paper_complete on failure
(unparseable response after retries, or transport error). -/
def failureResult : EnrichResult :=
  { paper_title_zh := "", paper_abstract_zh := "", topic := [], category := [] }

/-- The vocabulary validation step of process_paper_complete (llm_process.py
lines 156-177): keep only topics/categories present in the configured
candidate lists, discarding (with a log line) the rest; always returns a
structured result, never an error. -/
def validateClassification (cfg : Config) (tzh azh : String)
    (topic category : List String) : EnrichResult :=
  { paper_title_zh := tzh
    paper_abstract_zh := azh
    topic := topic.filter fun t => cfg.all_topic.contains t
    category := category.filter fun c => cfg.all_category.contains c }

/-- The field update applied to the matching copy in
process_papers_classification (llm_process.py lines 330-337): each result
field is written only when truthy (non-empty string / non-empty list). -/
def updatePaper (p : Paper) (result : EnrichResult) : Paper :=
  { p with
    paper_title_zh :=
      if result.paper_title_zh = "" then p.paper_title_zh else result.paper_title_zh
    paper_abstract_zh :=
      if result.paper_abstract_zh = "" then p.paper_abstract_zh else result.paper_abstract_zh
    topic := if result.topic = [] then p.topic else result.topic
    category := if result.category = [] then p.category else result.category }

/-- The filter condition of llm_process.py lines 346-356: not whitelisted and
(category list is exactly the singleton Other, or topic list is). -/
def shouldFilter (cfg : Config) (p : Paper) : Bool :=
  !(is_paper_in_whitelist p cfg.whitelist_subjects) &&
    (decide (p.category = ["Other"]) || decide (p.topic = ["Other"]))

/-- One iteration of the per-record block of process_papers_classification
(llm_process.py lines 326-367): scan the live copy for the first record with
the processed record's id, apply the enrichment result, and remove the updated
record when the filter condition holds (then break). -/
def processOne (cfg : Config) (result : EnrichResult) (pid : String) :
    List Paper → List Paper
  | [] => []
  | p :: rest =>
    if p.paper_id = pid then
      let q := updatePaper p result
      if shouldFilter cfg q then rest else q :: rest
    else p :: processOne cfg result pid rest

/-- The ids of a record set (the dict keys). -/
def idsOf (l : List Paper) : List String := l.map fun p => p.paper_id

/-- Look a record up by paper_id (dict indexing on the association list). -/
def findPaper (l : List Paper) (pid : String) : Option Paper :=
  l.find? fun p => p.paper_id == pid

/-- The guarded-append loop used by collect_daily_papers (daily_paper_collector.py
lines 294-301) to union a new record's topic/category values into an existing
record's list, appending each value not already present, in order. -/
def mergeVals (old toAdd : List String) : List String :=
  toAdd.foldl (fun acc v => if v ∈ acc then acc else acc ++ [v]) old

/-- The per-id merge of collect_daily_papers for an already-present id: union
topic and category, leave every other field of the existing record alone. -/
def updTC (ex p : Paper) : Paper :=
  { ex with topic := mergeVals ex.topic p.topic
            category := mergeVals ex.category p.category }

/-- One iteration of the incremental-merge loop of collect_daily_papers
(daily_paper_collector.py lines 287-301): a new id is added as-is, an existing
id gets only its topic/category lists unioned. -/
def insertMerge (acc : List Paper) (p : Paper) : List Paper :=
  if acc.any (fun ex => ex.paper_id == p.paper_id) then
    acc.map fun ex => if ex.paper_id = p.paper_id then updTC ex p else ex
  else acc ++ [p]

/-- Merging a freshly collected batch (final_papers) into the existing
persisted record set, as in collect_daily_papers lines 285-301. -/
def mergeIncremental (existing fresh : List Paper) : List Paper :=
  fresh.foldl insertMerge existing

/-- The per-duplicate update of merge_papers_by_topic (daily_paper_collector.py
lines 234-241): append the provenance topic and its mapped category when not
already present. -/
def addT (tcat : String → String) (t : String) (ex : Paper) : Paper :=
  { ex with topic := if t ∈ ex.topic then ex.topic else ex.topic ++ [t]
            category := if tcat t ∈ ex.category then ex.category else ex.category ++ [tcat t] }

/-- One iteration of merge_papers_by_topic's inner loop for a paper found under
provenance topic t: a fresh id stores a copy of the paper, a duplicate id
unions in t and its category. -/
def insertTopicPaper (tcat : String → String) (t : String)
    (acc : List Paper) (p : Paper) : List Paper :=
  if acc.any (fun ex => ex.paper_id == p.paper_id) then
    acc.map fun ex => if ex.paper_id = p.paper_id then addT tcat t ex else ex
  else acc ++ [p]

/-- merge_papers_by_topic (daily_paper_collector.py lines 226-246): fold the
per-topic result lists into one id-keyed set. -/
def mergeByTopic (tcat : String → String)
    (results : List (String × List Paper)) : List Paper :=
  results.foldl (fun acc pair => pair.2.foldl (insertTopicPaper tcat pair.1) acc) []

/-- add_incremental_papers (daily_paper_collector.py lines 248-259): a
category-query record whose id already exists is discarded entirely, a new id
is added as-is. -/
def addIncremental (existing catPapers : List Paper) : List Paper :=
  catPapers.foldl
    (fun acc p => if acc.any (fun ex => ex.paper_id == p.paper_id) then acc else acc ++ [p])
    existing

/-- A record as built by search_papers_by_keywords (daily_paper_collector.py
lines 159-170): provenance topic t, category via the topic-to-category lookup,
no subjects field. -/
def mkKeywordPaper (tcat : String → String)
    (t title pid abs pcat utime authors : String) : Paper :=
  { paper_title := title, paper_title_zh := "", paper_id := pid
    paper_abstract := abs, paper_abstract_zh := ""
    primary_category := pcat, update_time := utime, paper_authors := authors
    topic := [t], category := [tcat t], subjects := none }

/-- A record as built by search_papers_by_categories (daily_paper_collector.py
lines 204-215): empty topic list, default Other category, no subjects field. -/
def mkCategoryPaper (title pid abs pcat utime authors : String) : Paper :=
  { paper_title := title, paper_title_zh := "", paper_id := pid
    paper_abstract := abs, paper_abstract_zh := ""
    primary_category := pcat, update_time := utime, paper_authors := authors
    topic := [], category := ["Other"], subjects := none }

/-- The per-date persisted files, as an association list from date string to
record list (the papers directory). -/
abbrev PaperStore := List (String × List Paper)

/-- Write a date's record list: overwrite the entry when the file exists,
create it otherwise. -/
def savePapersStore (store : PaperStore) (d : String) (ps : List Paper) : PaperStore :=
  if store.any (fun f => f.1 == d) then
    store.map fun f => if f.1 = d then (d, ps) else f
  else store ++ [(d, ps)]

/-- Read a date's record list; a missing file reads as the empty list, as in
load_papers_for_date. -/
def loadPapers (store : PaperStore) (d : String) : List Paper :=
  ((store.find? fun f => f.1 == d).map fun f => f.2).getD []

/-- Insertion into a sorted date list (model of Python list.sort on strings). -/
def insSorted (d : String) : List String → List String
  | [] => [d]
  | e :: es => if d ≤ e then d :: e :: es else e :: insSorted d es

/-- Sorting a date list (model of Python list.sort on strings). -/
def sortDates (l : List String) : List String := l.foldr insSorted []

/-- save_papers_for_date of daily_paper_collector.py (lines 92-114): write the
date file, insert the date into the ledger and re-sort, recompute total_papers
by re-reading every listed date's file, stamp last_updated. -/
def collectorSave (store : PaperStore) (idx : LedgerIndex) (d : String)
    (ps : List Paper) (now : String) : PaperStore × LedgerIndex :=
  let store' := savePapersStore store d ps
  let dates' := if d ∈ idx.dates then idx.dates else sortDates (idx.dates ++ [d])
  let total := (dates'.map fun e => (loadPapers store' e).length).sum
  (store', { dates := dates', total_papers := total, last_updated := now })

/-- save_papers_for_date of llm_process.py (lines 221-231): write the date
file only; the index ledger is not touched. -/
def enrichSave (store : PaperStore) (d : String) (ps : List Paper) : PaperStore :=
  savePapersStore store d ps

/-- cleanup_empty_papers.py main (lines 82-119): delete every date file whose
content is the empty list, drop those dates from the ledger's date set
(re-sorted, de-duplicated), and deliberately leave total_papers unchanged; when
nothing was deleted the ledger is not rewritten. -/
def cleanup (store : PaperStore) (idx : LedgerIndex) : PaperStore × LedgerIndex :=
  let removed := ((store.filter fun f => f.2.isEmpty).map fun f => f.1)
  if removed.isEmpty then (store, idx)
  else
    (store.filter fun f => !f.2.isEmpty,
     { idx with dates := sortDates ((idx.dates.filter fun e => !(removed.contains e)).dedup) })

/-- The ledger-consistency property as the specification words it: every
non-empty persisted record set's date is in the ledger, every ledger date has a
non-empty persisted record set, and total_papers is the sum of all per-date
record counts. -/
def specLedgerConsistent (store : PaperStore) (idx : LedgerIndex) : Prop :=
  (∀ f ∈ store, f.2 ≠ [] → f.1 ∈ idx.dates) ∧
  (∀ d ∈ idx.dates, loadPapers store d ≠ []) ∧
  idx.total_papers = (store.map fun f => f.2.length).sum

instance (store : PaperStore) (idx : LedgerIndex) :
    Decidable (specLedgerConsistent store idx) :=
  inferInstanceAs (Decidable (_ ∧ _ ∧ _))

/-- A sample configuration (concrete instance used to exercise the theorems). -/
def cfgEx : Config :=
  { all_topic := ["TTS", "VC", "ASR"]
    all_category := ["Music", "Speech", "Image", "Other"]
    whitelist_subjects := ["Audio and Speech Processing (eess.AS)"] }

/-- A sample topic-to-category lookup (concrete instance). -/
def tcatEx : String → String := fun t => if t = "TTS" then "Speech" else if t = "VC" then "Speech" else "Other"

/-- A sample already-classified record. -/
def pEx3 : Paper :=
  { paper_title := "A speech paper", paper_title_zh := "", paper_id := "2509.00003"
    paper_abstract := "abs", paper_abstract_zh := ""
    primary_category := "eess.AS", update_time := "2025-09-09", paper_authors := "A, B"
    topic := ["TTS"], category := ["Speech"], subjects := none }

/-- A sample enrichment result carrying only a topic list. -/
def rEx3 : EnrichResult :=
  { paper_title_zh := "", paper_abstract_zh := "", topic := ["VC"], category := [] }

/-- A sample record whose pre-existing category list is exactly Other and whose
translations are still missing. -/
def pEx4 : Paper :=
  { paper_title := "A misc paper", paper_title_zh := "", paper_id := "2509.00004"
    paper_abstract := "abs", paper_abstract_zh := ""
    primary_category := "cs.SD", update_time := "2025-09-09", paper_authors := "C"
    topic := [], category := ["Other"], subjects := none }

/-- A sample enriched record with distinct ids for merge witnesses. -/
def pEx5 : Paper :=
  { paper_title := "Existing record", paper_title_zh := "已有标题", paper_id := "2509.00005"
    paper_abstract := "abs", paper_abstract_zh := "摘要"
    primary_category := "cs.SD", update_time := "2025-09-09", paper_authors := "D"
    topic := ["TTS"], category := ["Speech"], subjects := none }

/-- A freshly collected record with the same id as pEx5 but different lists. -/
def pEx5' : Paper :=
  { pEx5 with paper_title_zh := "", paper_abstract_zh := "", topic := ["VC"], category := ["Speech"] }

/-- A keyword-query record found under topic TTS. -/
def pW1 : Paper := mkKeywordPaper tcatEx "TTS" "Paper W" "2509.00010" "ab" "cs.SD" "2025-09-09" "au"

/-- The same paper found again under topic VC. -/
def pW2 : Paper := mkKeywordPaper tcatEx "VC" "Paper W" "2509.00010" "ab" "cs.SD" "2025-09-09" "au"

/- ------------------------------------------------------------------ -/
/- Helper lemmas about the enrichment driver step.                     -/
/- ------------------------------------------------------------------ -/

theorem shouldFilter_iff (cfg : Config) (p : Paper) :
    shouldFilter cfg p = true ↔
      (is_paper_in_whitelist p cfg.whitelist_subjects = false ∧
        (p.category = ["Other"] ∨ p.topic = ["Other"])) := by
  simp [shouldFilter]

theorem updatePaper_failure (p : Paper) : updatePaper p failureResult = p := rfl

theorem updatePaper_subjects (p : Paper) (r : EnrichResult) :
    (updatePaper p r).subjects = p.subjects := rfl

theorem processOne_split (cfg : Config) (r : EnrichResult) (pid : String)
    (pre : List Paper) (p : Paper) (rest : List Paper)
    (hpre : ∀ q ∈ pre, q.paper_id ≠ pid) (hp : p.paper_id = pid) :
    processOne cfg r pid (pre ++ p :: rest) =
      if shouldFilter cfg (updatePaper p r) then pre ++ rest
      else pre ++ updatePaper p r :: rest := by
  induction pre with
  | nil => simp [processOne, hp]
  | cons a pre ih =>
    have ha : a.paper_id ≠ pid := hpre a (by simp)
    have ih' := ih fun q hq => hpre q (by simp [hq])
    have hstep : processOne cfg r pid ((a :: pre) ++ p :: rest) =
        a :: processOne cfg r pid (pre ++ p :: rest) := by
      simp [processOne, ha]
    rw [hstep, ih']
    by_cases hf : shouldFilter cfg (updatePaper p r) = true <;> simp [hf]

/-- C1: after the driver processes a record (applies the enrichment result to
the first record matching its id), the record is removed from the record set
if and only if it is not whitelisted and its updated category list or topic
list is exactly the single-element list containing Other; whitelisted records
and records with empty or mixed lists are kept (in place, updated). -/
theorem c1_filter_iff (cfg : Config) (r : EnrichResult) (pid : String)
    (pre : List Paper) (p : Paper) (rest : List Paper)
    (hpre : ∀ q ∈ pre, q.paper_id ≠ pid) (hp : p.paper_id = pid) :
    processOne cfg r pid (pre ++ p :: rest) =
      if is_paper_in_whitelist (updatePaper p r) cfg.whitelist_subjects = false ∧
          ((updatePaper p r).category = ["Other"] ∨ (updatePaper p r).topic = ["Other"]) then
        pre ++ rest
      else pre ++ updatePaper p r :: rest := by
  rw [processOne_split cfg r pid pre p rest hpre hp]
  by_cases hc : shouldFilter cfg (updatePaper p r) = true
  · rw [if_pos hc, if_pos ((shouldFilter_iff cfg (updatePaper p r)).mp hc)]
  · rw [if_neg hc, if_neg (fun hprop => hc ((shouldFilter_iff cfg (updatePaper p r)).mpr hprop))]

/-- Witness for C1 at a concrete record and result. -/
theorem c1_filter_iff_witness :
    processOne cfgEx rEx3 "2509.00003" ([] ++ pEx3 :: []) =
      if is_paper_in_whitelist (updatePaper pEx3 rEx3) cfgEx.whitelist_subjects = false ∧
          ((updatePaper pEx3 rEx3).category = ["Other"] ∨ (updatePaper pEx3 rEx3).topic = ["Other"]) then
        [] ++ ([] : List Paper)
      else [] ++ updatePaper pEx3 rEx3 :: [] :=
  c1_filter_iff cfgEx rEx3 "2509.00003" [] pEx3 [] (by simp) (by decide)

/-- C3 counterexample: the driver's update step replaces a non-empty topic
list with the result's topic list instead of union-merging; the record's old
topic value is lost although the field was non-empty. -/
theorem c3_counterexample :
    pEx3.topic ≠ [] ∧ (updatePaper pEx3 rEx3).topic ≠ pEx3.topic ∧
      "TTS" ∈ pEx3.topic ∧ "TTS" ∉ (updatePaper pEx3 rEx3).topic := by
  decide

/-- C3 amended: applying a successful enrichment result never turns a
non-empty field empty, and a field is left unchanged exactly when the result's
value for it is empty; but a non-empty result value overwrites (replaces) the
field, it is not union-merged. -/
theorem c3_amended (p : Paper) (r : EnrichResult) :
    (p.paper_title_zh ≠ "" → (updatePaper p r).paper_title_zh ≠ "") ∧
    (r.paper_title_zh = "" → (updatePaper p r).paper_title_zh = p.paper_title_zh) ∧
    (r.paper_title_zh ≠ "" → (updatePaper p r).paper_title_zh = r.paper_title_zh) ∧
    (p.paper_abstract_zh ≠ "" → (updatePaper p r).paper_abstract_zh ≠ "") ∧
    (r.paper_abstract_zh = "" → (updatePaper p r).paper_abstract_zh = p.paper_abstract_zh) ∧
    (r.paper_abstract_zh ≠ "" → (updatePaper p r).paper_abstract_zh = r.paper_abstract_zh) ∧
    (p.topic ≠ [] → (updatePaper p r).topic ≠ []) ∧
    (r.topic = [] → (updatePaper p r).topic = p.topic) ∧
    (r.topic ≠ [] → (updatePaper p r).topic = r.topic) ∧
    (p.category ≠ [] → (updatePaper p r).category ≠ []) ∧
    (r.category = [] → (updatePaper p r).category = p.category) ∧
    (r.category ≠ [] → (updatePaper p r).category = r.category) := by
  refine ⟨?_, ?_, ?_, ?_, ?_, ?_, ?_, ?_, ?_, ?_, ?_, ?_⟩ <;>
    (intro h; simp only [updatePaper]; split <;> simp_all)

/-- Witness for C3's amended statement at a concrete record. -/
theorem c3_amended_witness : (updatePaper pEx5 rEx3).paper_title_zh ≠ "" :=
  (c3_amended pEx5 rEx3).1 (by decide)

/-- C4 counterexample: when the adapter fails, the all-empty failure result
leaves the record's fields unchanged, yet the filter still runs, so a
non-whitelisted record whose pre-existing category list is exactly Other is
removed from the record set. -/
theorem c4_counterexample :
    updatePaper pEx4 failureResult = pEx4 ∧
      pEx4 ∉ processOne cfgEx failureResult "2509.00004" [pEx4] := by
  decide

/-- C4 amended: a failed adapter call leaves every field of the record
unchanged and the driver proceeds (one attempt per candidate), but the filter
policy is still evaluated on the unchanged record, so it stays in the record
set only if it is not subject to the Other-only filter. -/
theorem c4_amended (cfg : Config) (pid : String) (pre : List Paper) (p : Paper)
    (rest : List Paper)
    (hpre : ∀ q ∈ pre, q.paper_id ≠ pid) (hp : p.paper_id = pid) :
    updatePaper p failureResult = p ∧
    processOne cfg failureResult pid (pre ++ p :: rest) =
      if shouldFilter cfg p then pre ++ rest else pre ++ p :: rest := by
  refine ⟨updatePaper_failure p, ?_⟩
  have h := processOne_split cfg failureResult pid pre p rest hpre hp
  rwa [updatePaper_failure] at h

/-- Witness for C4's amended statement at a concrete record. -/
theorem c4_amended_witness :
    updatePaper pEx4 failureResult = pEx4 ∧
    processOne cfgEx failureResult "2509.00004" ([] ++ pEx4 :: []) =
      if shouldFilter cfgEx pEx4 then [] ++ ([] : List Paper) else [] ++ pEx4 :: [] :=
  c4_amended cfgEx "2509.00004" [] pEx4 [] (by simp) (by decide)

/-- C9: the validation step keeps only topics/categories from the closed
vocabularies (invalid values are discarded, the call still yields a structured
result), and therefore every topic/category value the driver writes when
applying a validated result is either from the vocabulary or was already on
the record. -/
theorem c9_vocab (cfg : Config) (tzh azh : String) (rawT rawC : List String)
    (p : Paper) :
    (∀ t ∈ (validateClassification cfg tzh azh rawT rawC).topic, t ∈ cfg.all_topic) ∧
    (∀ c ∈ (validateClassification cfg tzh azh rawT rawC).category, c ∈ cfg.all_category) ∧
    (∀ t ∈ (updatePaper p (validateClassification cfg tzh azh rawT rawC)).topic,
        t ∈ cfg.all_topic ∨ t ∈ p.topic) ∧
    (∀ c ∈ (updatePaper p (validateClassification cfg tzh azh rawT rawC)).category,
        c ∈ cfg.all_category ∨ c ∈ p.category) := by
  have ht : ∀ t ∈ (validateClassification cfg tzh azh rawT rawC).topic,
      t ∈ cfg.all_topic := by
    intro t htm
    simp only [validateClassification, List.mem_filter] at htm
    simpa using htm.2
  have hc : ∀ c ∈ (validateClassification cfg tzh azh rawT rawC).category,
      c ∈ cfg.all_category := by
    intro c hcm
    simp only [validateClassification, List.mem_filter] at hcm
    simpa using hcm.2
  refine ⟨ht, hc, ?_, ?_⟩
  · intro t htm
    by_cases he : (validateClassification cfg tzh azh rawT rawC).topic = []
    · right
      have : (updatePaper p (validateClassification cfg tzh azh rawT rawC)).topic =
          p.topic := by
        simp [updatePaper, he]
      rwa [this] at htm
    · left
      have : (updatePaper p (validateClassification cfg tzh azh rawT rawC)).topic =
          (validateClassification cfg tzh azh rawT rawC).topic := by
        simp [updatePaper, he]
      exact ht t (this ▸ htm)
  · intro c hcm
    by_cases he : (validateClassification cfg tzh azh rawT rawC).category = []
    · right
      have : (updatePaper p (validateClassification cfg tzh azh rawT rawC)).category =
          p.category := by
        simp [updatePaper, he]
      rwa [this] at hcm
    · left
      have : (updatePaper p (validateClassification cfg tzh azh rawT rawC)).category =
          (validateClassification cfg tzh azh rawT rawC).category := by
        simp [updatePaper, he]
      exact hc c (this ▸ hcm)

/-- Witness for C9 at a concrete configuration and raw adapter output. -/
theorem c9_vocab_witness : "TTS" ∈ cfgEx.all_topic :=
  (c9_vocab cfgEx "" "" ["TTS", "bogus"] ["Speech"] pEx4).1 "TTS" (by decide)

/-- C10: records built by the keyword-query and category-query adapters carry
no subjects field; a record without subjects is never whitelisted, so whenever
its updated category or topic list is exactly Other it is filtered with no
possible whitelist exemption. -/
theorem c10_no_subjects (wl : List String) (cfg : Config) (r : EnrichResult)
    (tcat : String → String) (t ti pid0 ab pc ut au : String)
    (pre rest : List Paper) (p : Paper)
    (hpre : ∀ q ∈ pre, q.paper_id ≠ p.paper_id)
    (hsub : p.subjects = none)
    (hoth : (updatePaper p r).category = ["Other"] ∨ (updatePaper p r).topic = ["Other"]) :
    (mkKeywordPaper tcat t ti pid0 ab pc ut au).subjects = none ∧
    (mkCategoryPaper ti pid0 ab pc ut au).subjects = none ∧
    is_paper_in_whitelist p wl = false ∧
    processOne cfg r p.paper_id (pre ++ p :: rest) = pre ++ rest := by
  refine ⟨rfl, rfl, ?_, ?_⟩
  · simp [is_paper_in_whitelist, hsub]
  · have hf : shouldFilter cfg (updatePaper p r) = true :=
      (shouldFilter_iff cfg (updatePaper p r)).mpr
        ⟨by simp [is_paper_in_whitelist, updatePaper_subjects, hsub], hoth⟩
    rw [processOne_split cfg r p.paper_id pre p rest hpre rfl, hf]
    simp

/-- Witness for C10 at a concrete adapter-built record. -/
theorem c10_no_subjects_witness :
    (mkKeywordPaper tcatEx "TTS" "ti" "2509.00008" "ab" "cs.SD" "2025-09-09" "au").subjects = none ∧
    (mkCategoryPaper "ti" "2509.00009" "ab" "cs.SD" "2025-09-09" "au").subjects = none ∧
    is_paper_in_whitelist pEx4 ["Sound (cs.SD)"] = false ∧
    processOne cfgEx failureResult pEx4.paper_id ([] ++ pEx4 :: []) = [] :=
  c10_no_subjects ["Sound (cs.SD)"] cfgEx failureResult tcatEx "TTS" "ti" "2509.00008"
    "ab" "cs.SD" "2025-09-09" "au" [] [] pEx4 (by simp) (by decide) (by decide)

/- ------------------------------------------------------------------ -/
/- Helper lemmas about the merge operations.                           -/
/- ------------------------------------------------------------------ -/

theorem find?_map_pres {α : Type _} (f : α → α) (p : α → Bool) (l : List α)
    (h : ∀ x, p (f x) = p x) : (l.map f).find? p = (l.find? p).map f := by
  induction l with
  | nil => rfl
  | cons a as ih =>
    by_cases hpa : p a = true
    · rw [List.map_cons, List.find?_cons_of_pos _ (by rw [h a]; exact hpa),
        List.find?_cons_of_pos _ hpa, Option.map_some']
    · rw [List.map_cons, List.find?_cons_of_neg _ (by rw [h a]; simpa using hpa),
        List.find?_cons_of_neg _ (by simpa using hpa), ih]

/-- Lookup after an insert-or-update step keyed on paper_id, for any in-place
update g that preserves the id. -/
theorem findPaper_insertWith (g : Paper → Paper) (hg : ∀ ex, (g ex).paper_id = ex.paper_id)
    (acc : List Paper) (q : Paper) (pid : String) :
    findPaper
        (if acc.any (fun ex => ex.paper_id == q.paper_id) then
          acc.map fun ex => if ex.paper_id = q.paper_id then g ex else ex
        else acc ++ [q]) pid =
      if q.paper_id = pid then
        match findPaper acc pid with
        | some ex => some (g ex)
        | none => some q
      else findPaper acc pid := by
  by_cases hany : acc.any (fun ex => ex.paper_id == q.paper_id) = true
  · rw [if_pos hany]
    have hmap : findPaper (acc.map fun ex => if ex.paper_id = q.paper_id then g ex else ex) pid =
        (findPaper acc pid).map fun ex => if ex.paper_id = q.paper_id then g ex else ex := by
      apply find?_map_pres
      intro x
      by_cases hx : x.paper_id = q.paper_id <;> simp [hx, hg]
    rw [hmap]
    by_cases hq : q.paper_id = pid
    · rw [if_pos hq]
      have hsome : ∃ x, x ∈ acc ∧ (x.paper_id == pid) = true := by
        obtain ⟨ex, hexm, hexp⟩ := List.any_eq_true.mp hany
        exact ⟨ex, hexm, by simp_all⟩
      obtain ⟨ex₀, hfind⟩ := Option.isSome_iff_exists.mp (List.find?_isSome.mpr hsome)
      have hfind' : findPaper acc pid = some ex₀ := hfind
      rw [hfind']
      have hex₀ : ex₀.paper_id = pid := by simpa using List.find?_some hfind
      simp [hex₀, hq]
    · rw [if_neg hq]
      cases hfind : findPaper acc pid with
      | none => simp
      | some ex₀ =>
        have hex₀ : ex₀.paper_id = pid := by
          rw [findPaper] at hfind
          simpa using List.find?_some hfind
        have hne : ¬(ex₀.paper_id = q.paper_id) := by
          rw [hex₀]
          exact fun hcontra => hq hcontra.symm
        simp [hne]
  · rw [if_neg hany]
    rw [findPaper, List.find?_append]
    by_cases hq : q.paper_id = pid
    · have hnone : acc.find? (fun p => p.paper_id == pid) = none := by
        rw [List.find?_eq_none]
        intro x hx
        have hx' := List.any_eq_false.mp (Bool.not_eq_true _ ▸ hany) x hx
        simp only [beq_iff_eq] at hx' ⊢
        rw [hq] at hx'
        exact hx'
      rw [hnone, if_pos hq, findPaper, hnone]
      simp [hq]
    · have hsingle : ([q].find? fun p => p.paper_id == pid) = none := by simp [hq]
      rw [hsingle, if_neg hq, findPaper]
      cases acc.find? (fun p => p.paper_id == pid) <;> rfl

theorem findPaper_insertMerge (acc : List Paper) (q : Paper) (pid : String) :
    findPaper (insertMerge acc q) pid =
      if q.paper_id = pid then
        match findPaper acc pid with
        | some ex => some (updTC ex q)
        | none => some q
      else findPaper acc pid := by
  unfold insertMerge
  exact findPaper_insertWith (fun ex => updTC ex q) (fun ex => rfl) acc q pid

theorem findPaper_insertTopicPaper (tcat : String → String) (t : String)
    (acc : List Paper) (q : Paper) (pid : String) :
    findPaper (insertTopicPaper tcat t acc q) pid =
      if q.paper_id = pid then
        match findPaper acc pid with
        | some ex => some (addT tcat t ex)
        | none => some q
      else findPaper acc pid := by
  unfold insertTopicPaper
  exact findPaper_insertWith (addT tcat t) (fun ex => rfl) acc q pid

/-- C5: merging a freshly collected batch into an existing record set leaves
absent ids absent, keeps existing records untouched when the batch has no
record with that id, adds batch records with new ids as-is, and for ids
present on both sides keeps every field of the existing record except the
topic and category lists, which are unioned with the batch record's lists. -/
theorem c5_incremental_merge (existing fresh : List Paper) (pid : String)
    (hfresh : (idsOf fresh).Nodup) :
    findPaper (mergeIncremental existing fresh) pid =
      match findPaper existing pid, findPaper fresh pid with
      | none, none => none
      | some ex, none => some ex
      | none, some p => some p
      | some ex, some p => some (updTC ex p) := by
  induction fresh generalizing existing with
  | nil =>
    cases h : findPaper existing pid <;>
      · simp only [findPaper] at h
        simp [mergeIncremental, findPaper, h]
  | cons q rest ih =>
    have hnodup : (∀ x ∈ rest, ¬x.paper_id = q.paper_id) ∧
        (rest.map fun p => p.paper_id).Nodup := by
      simpa [idsOf] using hfresh
    have hrest_nodup : (idsOf rest).Nodup := hnodup.2
    have hq_notin : q.paper_id ∉ idsOf rest := by
      simp only [idsOf, List.mem_map]
      rintro ⟨x, hx, hxid⟩
      exact hnodup.1 x hx hxid
    have hunfold : mergeIncremental existing (q :: rest) =
        mergeIncremental (insertMerge existing q) rest := rfl
    rw [hunfold, ih _ hrest_nodup]
    by_cases hq : q.paper_id = pid
    · have hrest : findPaper rest pid = none := by
        rw [findPaper, List.find?_eq_none]
        intro x hx hpx
        apply hq_notin
        have hxid : x.paper_id = pid := by simpa using hpx
        rw [hq, ← hxid]
        exact List.mem_map_of_mem _ hx
      have hcons : findPaper (q :: rest) pid = some q := by
        simp [findPaper, hq]
      rw [findPaper_insertMerge, if_pos hq, hrest, hcons]
      cases h : findPaper existing pid <;> simp
    · have hcons : findPaper (q :: rest) pid = findPaper rest pid := by
        simp [findPaper, hq]
      rw [findPaper_insertMerge, if_neg hq, hcons]

/-- Witness for C5 at concrete record sets (same id on both sides, plus a new
id contributed by the batch). -/
theorem c5_incremental_merge_witness :
    findPaper (mergeIncremental [pEx5] [pEx5', pEx4]) "2509.00005" =
      match findPaper [pEx5] "2509.00005", findPaper [pEx5', pEx4] "2509.00005" with
      | none, none => none
      | some ex, none => some ex
      | none, some p => some p
      | some ex, some p => some (updTC ex p) :=
  c5_incremental_merge [pEx5] [pEx5', pEx4] "2509.00005" (by decide)

/-- C7: merging category-query records into the keyword-derived set never
changes an existing record in any field (the category-query duplicate is
discarded entirely), and a category-query record with a fresh id becomes the
set's record for that id as-is. -/
theorem c7_category_precedence (existing catPapers : List Paper) (pid : String) :
    findPaper (addIncremental existing catPapers) pid =
      match findPaper existing pid with
      | some ex => some ex
      | none => findPaper catPapers pid := by
  induction catPapers generalizing existing with
  | nil =>
    cases h : findPaper existing pid <;>
      · simp only [findPaper] at h
        simp [addIncremental, findPaper, h]
  | cons q rest ih =>
    by_cases hany : existing.any (fun ex => ex.paper_id == q.paper_id) = true
    · have hstep : addIncremental existing (q :: rest) = addIncremental existing rest := by
        unfold addIncremental
        rw [List.foldl_cons, if_pos hany]
      rw [hstep, ih]
      cases hex : findPaper existing pid with
      | some ex => rfl
      | none =>
        have hqne : q.paper_id ≠ pid := by
          intro hqp
          obtain ⟨x, hx, hxp⟩ := List.any_eq_true.mp hany
          have hxid : x.paper_id = q.paper_id := by simpa using hxp
          rw [findPaper, List.find?_eq_none] at hex
          exact hex x hx (by simp [hxid, hqp])
        simp [findPaper, hqne]
    · have hstep : addIncremental existing (q :: rest) =
          addIncremental (existing ++ [q]) rest := by
        unfold addIncremental
        rw [List.foldl_cons, if_neg hany]
      rw [hstep, ih]
      cases hex : findPaper existing pid with
      | some ex =>
        have happ : findPaper (existing ++ [q]) pid = some ex := by
          rw [findPaper, List.find?_append]
          rw [findPaper] at hex
          simp [hex]
        rw [happ]
      | none =>
        have happ : findPaper (existing ++ [q]) pid = findPaper [q] pid := by
          rw [findPaper, List.find?_append]
          rw [findPaper] at hex
          simp [hex, findPaper]
        rw [happ]
        by_cases hq : q.paper_id = pid <;> simp [findPaper, hq]

/-- Pointwise-equal maps agree. -/
theorem mapPointwiseEq {α : Type _} (l : List α) (f : α → α)
    (h : ∀ a ∈ l, f a = a) : l.map f = l := by
  induction l with
  | nil => rfl
  | cons a as ih =>
    rw [List.map_cons, h a (by simp), ih fun x hx => h x (by simp [hx])]

theorem mergeVals_of_subset (old toAdd : List String) (h : ∀ v ∈ toAdd, v ∈ old) :
    mergeVals old toAdd = old := by
  induction toAdd with
  | nil => rfl
  | cons v vs ih =>
    have hv : v ∈ old := h v (by simp)
    have hstep : mergeVals old (v :: vs) = mergeVals old vs := by
      simp [mergeVals, hv]
    rw [hstep, ih fun x hx => h x (by simp [hx])]

theorem insertMerge_self_mem (l : List Paper) (hn : (idsOf l).Nodup) (p : Paper)
    (hp : p ∈ l) : insertMerge l p = l := by
  unfold insertMerge
  rw [if_pos (List.any_eq_true.mpr ⟨p, hp, by simp⟩)]
  apply mapPointwiseEq
  intro ex hex
  by_cases hid : ex.paper_id = p.paper_id
  · have hexp : ex = p := List.inj_on_of_nodup_map (by simpa [idsOf] using hn) hex hp hid
    rw [if_pos hid, hexp]
    unfold updTC
    rw [mergeVals_of_subset _ _ fun v hv => hv, mergeVals_of_subset _ _ fun v hv => hv]
  · rw [if_neg hid]

/-- C8: merging a record set (with unique ids) with itself returns the record
set unchanged: same ids, and for every id the identical record, all fields
included. -/
theorem c8_idempotent (l : List Paper) (hn : (idsOf l).Nodup) :
    mergeIncremental l l = l := by
  suffices h : ∀ sub : List Paper, (∀ p ∈ sub, p ∈ l) → sub.foldl insertMerge l = l by
    exact h l fun p hp => hp
  intro sub
  induction sub with
  | nil => intro _; rfl
  | cons q rest ih =>
    intro hsub
    have hq : insertMerge l q = l := insertMerge_self_mem l hn q (hsub q (by simp))
    simp only [List.foldl_cons, hq]
    exact ih fun p hp => hsub p (by simp [hp])

/-- Witness for C8 at a concrete two-record set. -/
theorem c8_idempotent_witness : mergeIncremental [pEx5, pEx4] [pEx5, pEx4] = [pEx5, pEx4] :=
  c8_idempotent [pEx5, pEx4] (by decide)

theorem addT_idem (tcat : String → String) (t : String) (ex : Paper) :
    addT tcat t (addT tcat t ex) = addT tcat t ex := by
  unfold addT
  by_cases ht : t ∈ ex.topic <;> by_cases hc : tcat t ∈ ex.category <;>
    simp [ht, hc]

theorem addT_shape (tcat : String → String) (t : String) (p : Paper)
    (htop : p.topic = [t]) (hcat : p.category = [tcat t]) :
    addT tcat t p = p := by
  have h1 : (if t ∈ p.topic then p.topic else p.topic ++ [t]) = p.topic := by
    rw [htop]; simp
  have h2 : (if tcat t ∈ p.category then p.category else p.category ++ [tcat t]) = p.category := by
    rw [hcat]; simp
  unfold addT
  rw [h1, h2]

/-- Lookup after folding one provenance topic's result list into the merge
accumulator: records whose id never occurs are untouched, an id already in the
accumulator gets the provenance topic/category unioned in, and an id first
seen in this list is stored as the list's first record for it (unchanged,
because adapter records under topic t carry exactly topic [t] and its mapped
category). -/
theorem findPaper_foldTopic (tcat : String → String) (t : String)
    (papers : List Paper) (acc : List Paper) (pid : String)
    (hshape : ∀ p ∈ papers, p.topic = [t] ∧ p.category = [tcat t]) :
    findPaper (papers.foldl (insertTopicPaper tcat t) acc) pid =
      match papers.find? (fun p => p.paper_id == pid), findPaper acc pid with
      | none, r => r
      | some _, some ex => some (addT tcat t ex)
      | some p, none => some p := by
  induction papers generalizing acc with
  | nil => cases h : findPaper acc pid <;> simp [h]
  | cons q rest ih =>
    have hshape_rest : ∀ p ∈ rest, p.topic = [t] ∧ p.category = [tcat t] :=
      fun p hp => hshape p (by simp [hp])
    have hfold : (q :: rest).foldl (insertTopicPaper tcat t) acc =
        rest.foldl (insertTopicPaper tcat t) (insertTopicPaper tcat t acc q) := rfl
    rw [hfold, ih _ hshape_rest]
    by_cases hq : q.paper_id = pid
    · have hfq : (q :: rest).find? (fun p => p.paper_id == pid) = some q := by simp [hq]
      rw [hfq, findPaper_insertTopicPaper, if_pos hq]
      cases hrest : rest.find? (fun p => p.paper_id == pid) with
      | none => cases hacc : findPaper acc pid <;> simp
      | some p' =>
        cases hacc : findPaper acc pid with
        | none =>
          simp [addT_shape tcat t q (hshape q (by simp)).1 (hshape q (by simp)).2]
        | some ex => simp [addT_idem]
    · have hfq : (q :: rest).find? (fun p => p.paper_id == pid) =
          rest.find? (fun p => p.paper_id == pid) := by simp [hq]
      rw [hfq, findPaper_insertTopicPaper, if_neg hq]

theorem idsOf_insertTopicPaper_nodup (tcat : String → String) (t : String)
    (acc : List Paper) (q : Paper) (h : (idsOf acc).Nodup) :
    (idsOf (insertTopicPaper tcat t acc q)).Nodup := by
  unfold insertTopicPaper
  by_cases hany : acc.any (fun ex => ex.paper_id == q.paper_id) = true
  · rw [if_pos hany]
    have heq : idsOf (acc.map fun ex => if ex.paper_id = q.paper_id then addT tcat t ex else ex) =
        idsOf acc := by
      unfold idsOf
      rw [List.map_map]
      apply List.map_congr_left
      intro a _
      by_cases ha : a.paper_id = q.paper_id <;> simp [ha, addT]
    rw [heq]
    exact h
  · rw [if_neg hany]
    have hnotin : q.paper_id ∉ idsOf acc := by
      simp only [idsOf, List.mem_map]
      rintro ⟨x, hx, hxid⟩
      exact absurd (List.any_eq_true.mpr ⟨x, hx, by simp [hxid]⟩) hany
    unfold idsOf
    rw [List.map_append]
    simp only [List.map_cons, List.map_nil]
    rw [List.nodup_append]
    exact ⟨h, List.nodup_singleton _, by
      intro a ha hb
      simp only [List.mem_singleton] at hb
      exact hnotin (hb ▸ ha)⟩

theorem idsOf_foldTopic_nodup (tcat : String → String) (t : String)
    (papers : List Paper) (acc : List Paper) (h : (idsOf acc).Nodup) :
    (idsOf (papers.foldl (insertTopicPaper tcat t) acc)).Nodup := by
  induction papers generalizing acc with
  | nil => exact h
  | cons q rest ih => exact ih _ (idsOf_insertTopicPaper_nodup tcat t acc q h)

theorem idsOf_foldResults_nodup (tcat : String → String)
    (results : List (String × List Paper)) (acc : List Paper)
    (h : (idsOf acc).Nodup) :
    (idsOf (results.foldl
      (fun acc pair => pair.2.foldl (insertTopicPaper tcat pair.1) acc) acc)).Nodup := by
  induction results generalizing acc with
  | nil => exact h
  | cons pr rest ih => exact ih _ (idsOf_foldTopic_nodup tcat pr.1 pr.2 acc h)

theorem idsOf_mergeByTopic_nodup (tcat : String → String)
    (results : List (String × List Paper)) :
    (idsOf (mergeByTopic tcat results)).Nodup :=
  idsOf_foldResults_nodup tcat results [] (by simp [idsOf])

/-- C6: when the same id is found under two keyword provenance topics, the
merged record's topic list is the set union of the two input records' topic
lists and its category list is the set union of their (lookup-derived)
category lists, both duplicate-free, and the merged output has no duplicate
ids. -/
theorem c6_union (tcat : String → String) (t1 t2 : String) (ps1 ps2 : List Paper)
    (pid : String) (p1 p2 : Paper)
    (hshape1 : ∀ p ∈ ps1, p.topic = [t1] ∧ p.category = [tcat t1])
    (hshape2 : ∀ p ∈ ps2, p.topic = [t2] ∧ p.category = [tcat t2])
    (h1 : ps1.find? (fun p => p.paper_id == pid) = some p1)
    (h2 : ps2.find? (fun p => p.paper_id == pid) = some p2) :
    (idsOf (mergeByTopic tcat [(t1, ps1), (t2, ps2)])).Nodup ∧
    ∃ m, findPaper (mergeByTopic tcat [(t1, ps1), (t2, ps2)]) pid = some m ∧
      (∀ x, x ∈ m.topic ↔ (x ∈ p1.topic ∨ x ∈ p2.topic)) ∧
      (∀ x, x ∈ m.category ↔ (x ∈ p1.category ∨ x ∈ p2.category)) ∧
      m.topic.Nodup ∧ m.category.Nodup := by
  refine ⟨idsOf_mergeByTopic_nodup tcat _, ?_⟩
  have hunfold : mergeByTopic tcat [(t1, ps1), (t2, ps2)] =
      ps2.foldl (insertTopicPaper tcat t2) (ps1.foldl (insertTopicPaper tcat t1) []) := rfl
  have hinner : findPaper (ps1.foldl (insertTopicPaper tcat t1) []) pid = some p1 := by
    rw [findPaper_foldTopic tcat t1 ps1 [] pid hshape1, h1]
    rfl
  have houter : findPaper (mergeByTopic tcat [(t1, ps1), (t2, ps2)]) pid =
      some (addT tcat t2 p1) := by
    rw [hunfold, findPaper_foldTopic tcat t2 ps2 _ pid hshape2, h2, hinner]
  obtain ⟨ht1, hc1⟩ := hshape1 p1 (List.mem_of_find?_eq_some h1)
  obtain ⟨ht2, hc2⟩ := hshape2 p2 (List.mem_of_find?_eq_some h2)
  refine ⟨addT tcat t2 p1, houter, ?_, ?_, ?_, ?_⟩
  · intro x
    simp only [addT]
    rw [ht1, ht2]
    by_cases h : t2 = t1 <;> simp [h]
  · intro x
    simp only [addT]
    rw [hc1, hc2]
    by_cases h : tcat t2 = tcat t1 <;> simp [h]
  · simp only [addT]
    rw [ht1]
    by_cases h : t2 = t1
    · simp [h]
    · simp [h, Ne.symm h]
  · simp only [addT]
    rw [hc1]
    by_cases h : tcat t2 = tcat t1
    · simp [h]
    · simp [h, Ne.symm h]

/-- Witness for C6 at a concrete pair of keyword-query results. -/
theorem c6_union_witness :
    (idsOf (mergeByTopic tcatEx [("TTS", [pW1]), ("VC", [pW2])])).Nodup ∧
    ∃ m, findPaper (mergeByTopic tcatEx [("TTS", [pW1]), ("VC", [pW2])]) "2509.00010" = some m ∧
      (∀ x, x ∈ m.topic ↔ (x ∈ pW1.topic ∨ x ∈ pW2.topic)) ∧
      (∀ x, x ∈ m.category ↔ (x ∈ pW1.category ∨ x ∈ pW2.category)) ∧
      m.topic.Nodup ∧ m.category.Nodup :=
  c6_union tcatEx "TTS" "VC" [pW1] [pW2] "2509.00010" pW1 pW2
    (by decide) (by decide) (by decide) (by decide)

/- ------------------------------------------------------------------ -/
/- Helper lemmas about persistence and the index ledger.               -/
/- ------------------------------------------------------------------ -/

theorem loadPapers_save_self (store : PaperStore) (d : String) (ps : List Paper) :
    loadPapers (savePapersStore store d ps) d = ps := by
  unfold savePapersStore loadPapers
  by_cases hany : store.any (fun f => f.1 == d) = true
  · rw [if_pos hany]
    have hmap : (store.map fun f => if f.1 = d then (d, ps) else f).find? (fun f => f.1 == d) =
        (store.find? fun f => f.1 == d).map fun f => if f.1 = d then (d, ps) else f := by
      apply find?_map_pres
      intro x
      by_cases hx : x.1 = d <;> simp [hx]
    rw [hmap]
    obtain ⟨f₀, hmem, hf₀⟩ := List.any_eq_true.mp hany
    have hsome : ∃ x, x ∈ store ∧ (x.1 == d) = true := ⟨f₀, hmem, hf₀⟩
    obtain ⟨f₁, hfind⟩ := Option.isSome_iff_exists.mp (List.find?_isSome.mpr hsome)
    rw [hfind]
    have hf₁ : f₁.1 = d := by simpa using List.find?_some hfind
    simp [hf₁]
  · rw [if_neg hany]
    have hnone : store.find? (fun f => f.1 == d) = none := by
      rw [List.find?_eq_none]
      intro x hx hpx
      exact hany (List.any_eq_true.mpr ⟨x, hx, hpx⟩)
    rw [List.find?_append, hnone]
    simp

theorem loadPapers_save_other (store : PaperStore) (d : String) (ps : List Paper)
    (e : String) (h : e ≠ d) :
    loadPapers (savePapersStore store d ps) e = loadPapers store e := by
  unfold savePapersStore loadPapers
  by_cases hany : store.any (fun f => f.1 == d) = true
  · rw [if_pos hany]
    have hmap : (store.map fun f => if f.1 = d then (d, ps) else f).find? (fun f => f.1 == e) =
        (store.find? fun f => f.1 == e).map fun f => if f.1 = d then (d, ps) else f := by
      apply find?_map_pres
      intro x
      by_cases hx : x.1 = d <;> simp [hx]
    rw [hmap]
    cases hfind : store.find? (fun f => f.1 == e) with
    | none => simp
    | some f₁ =>
      have hf₁ : f₁.1 = e := by simpa using List.find?_some hfind
      have : ¬(f₁.1 = d) := by
        rw [hf₁]
        exact h
      simp [this]
  · rw [if_neg hany]
    rw [List.find?_append]
    have hsingle : ([(d, ps)].find? fun f => f.1 == e) = none := by
      simp [Ne.symm h]
    rw [hsingle]
    cases store.find? (fun f => f.1 == e) <;> rfl

theorem mem_insSorted (x d : String) (l : List String) :
    x ∈ insSorted d l ↔ x = d ∨ x ∈ l := by
  induction l with
  | nil => simp [insSorted]
  | cons e es ih =>
    unfold insSorted
    by_cases h : d ≤ e
    · rw [if_pos h]
      simp
    · rw [if_neg h, List.mem_cons, ih, List.mem_cons]
      tauto

theorem mem_sortDates (x : String) (l : List String) : x ∈ sortDates l ↔ x ∈ l := by
  induction l with
  | nil => simp [sortDates]
  | cons e es ih =>
    have : sortDates (e :: es) = insSorted e (sortDates es) := rfl
    rw [this, mem_insSorted]
    simp [ih]

/-- C2 counterexample: a collector save of one record followed by an
enrichment-driver save of the emptied record set (the filter removed the only
record) leaves the ledger claiming one paper for a date whose persisted
record set is empty: the spec-level consistency property fails. -/
theorem c2_counterexample :
    ¬ specLedgerConsistent
        (enrichSave (collectorSave [] ⟨[], 0, ""⟩ "2025-09-10" [pEx5] "t1").1 "2025-09-10" [])
        (collectorSave [] ⟨[], 0, ""⟩ "2025-09-10" [pEx5] "t1").2 := by
  decide

/-- C2 amended: only the collector's save maintains the ledger — after it the
saved date is listed and total_papers is recomputed as the sum of the
persisted record counts over the listed dates; the enrichment-driver save
rewrites just that date's record set and leaves the ledger untouched; cleanup
keeps only non-empty files and drops dates from the ledger without
recomputing total_papers. -/
theorem c2_amended (store : PaperStore) (idx : LedgerIndex) (d : String)
    (ps : List Paper) (now : String) (e : String) :
    (d ∈ (collectorSave store idx d ps now).2.dates ∧
      loadPapers (collectorSave store idx d ps now).1 d = ps ∧
      (collectorSave store idx d ps now).2.total_papers =
        ((collectorSave store idx d ps now).2.dates.map fun x =>
          (loadPapers (collectorSave store idx d ps now).1 x).length).sum) ∧
    (loadPapers (enrichSave store d ps) e = if e = d then ps else loadPapers store e) ∧
    ((cleanup store idx).2.total_papers = idx.total_papers ∧
      (∀ x ∈ (cleanup store idx).2.dates, x ∈ idx.dates) ∧
      (∀ f ∈ (cleanup store idx).1, f ∈ store ∧ f.2 ≠ [])) := by
  refine ⟨⟨?_, loadPapers_save_self store d ps, rfl⟩, ?_, ?_, ?_, ?_⟩
  · show d ∈ (if d ∈ idx.dates then idx.dates else sortDates (idx.dates ++ [d]))
    by_cases hd : d ∈ idx.dates
    · rwa [if_pos hd]
    · rw [if_neg hd, mem_sortDates]
      simp
  · show loadPapers (savePapersStore store d ps) e = _
    by_cases he : e = d
    · rw [if_pos he, he]
      exact loadPapers_save_self store d ps
    · rw [if_neg he]
      exact loadPapers_save_other store d ps e he
  · unfold cleanup
    by_cases h : ((store.filter fun f => f.2.isEmpty).map fun f => f.1).isEmpty = true <;>
      simp only [h, if_pos, if_neg, Bool.false_eq_true, not_false_eq_true]
  · intro x hx
    unfold cleanup at hx
    by_cases h : ((store.filter fun f => f.2.isEmpty).map fun f => f.1).isEmpty = true
    · rw [if_pos h] at hx
      exact hx
    · rw [if_neg h] at hx
      simp only at hx
      rw [mem_sortDates, List.mem_dedup, List.mem_filter] at hx
      exact hx.1
  · intro f hf
    unfold cleanup at hf
    by_cases h : ((store.filter fun f => f.2.isEmpty).map fun f => f.1).isEmpty = true
    · rw [if_pos h] at hf
      refine ⟨hf, ?_⟩
      have hfilter : (store.filter fun f => f.2.isEmpty) = [] :=
        List.map_eq_nil_iff.mp (List.isEmpty_iff.mp h)
      have := List.filter_eq_nil_iff.mp hfilter f hf
      intro hcontra
      exact this (by simp [hcontra])
    · rw [if_neg h] at hf
      simp only at hf
      rw [List.mem_filter] at hf
      refine ⟨hf.1, ?_⟩
      have := hf.2
      intro hcontra
      rw [hcontra] at this
      simp at this

/-- Witness for C2's amended statement at a concrete store and ledger. -/
theorem c2_amended_witness :
    "2025-09-10" ∈ (collectorSave [] ⟨[], 0, ""⟩ "2025-09-10" [pEx5] "t1").2.dates :=
  (c2_amended [] ⟨[], 0, ""⟩ "2025-09-10" [pEx5] "t1" "x").1.1

end ArxivTools
